import Mathlib

set_option maxRecDepth 100000

/- Shallow embedding of the sampling-and-caching core of the repository:
   utils.py (ESWR, sampler pool), datasets/cora_dataset.py (download_cora,
   ESWR, CoraDataset.process), transfer.py (setup_seed) and
   interactive_validation.py (get_big_dataset dataset merging). -/

/-- An undirected graph as handled by networkx in the source: a node list and
an edge list. Node attributes are kept separately where a claim needs them. -/
structure Graph where
  nodes : List Nat
  edges : List (Nat × Nat)
deriving DecidableEq, Repr

/-- The three exploration-sampling algorithms listed in possible_samplers
(utils.py line 150): MetropolisHastingsRandomWalkSampler, DiffusionSampler,
DepthFirstSearchSampler. -/
inductive Alg where
  | mh
  | diffusion
  | dfs
deriving DecidableEq, Repr

/-- Modelled from the spec (design note on module-level randomness): numpy's
global random generator, which is library code outside src/, is modelled as a
deterministic 32-bit state machine whose current state is also its next raw
output; rng_next is a linear-congruential step standing in for the real
generator. Every claim involving randomness relies only on the generator being
a deterministic function of its state, which holds of the real generator too. -/
def rng_next (s : Nat) : Nat := (1664525 * s + 1013904223) % 4294967296

/-- np.random.randint(bound): the current raw output reduced modulo the bound,
together with the advanced generator state. -/
def randint (bound : Nat) (s : Nat) : Nat × Nat := (s % bound, rng_next s)

/-- setup_seed (transfer.py lines 80-85): np.random.seed(seed) resets the
global generator state from the 32-bit seed. -/
def setup_seed (seed : Nat) : Nat := seed % 4294967296

/-- possible_samplers (utils.py line 150). -/
def possible_samplers : List Alg := [Alg.mh, Alg.diffusion, Alg.dfs]

/-- sampler_list construction (utils.py lines 151-154): for each algorithm in
possible_samplers, for each budget i in range(24, 96), append sampler(i). -/
def sampler_list : List (Alg × Nat) :=
  possible_samplers.foldl
    (fun acc sampler =>
      (List.range' 24 72).foldl (fun acc2 i => acc2 ++ [(sampler, i)]) acc)
    []

/-- The spec's description of the pool: the full cross-product of the
configured algorithm list and every integer budget in [24, 96), materialized
once. Written from the spec's words, to be compared with sampler_list. -/
def poolCrossProduct : List (Alg × Nat) :=
  possible_samplers.flatMap (fun a => (List.range' 24 72).map (fun b => (a, b)))

/-- Selection of one sampler per iteration (utils.py line 168):
sampler_list[np.random.randint(len(sampler_list))]. -/
def select_sampler (s : Nat) : (Alg × Nat) × Nat :=
  let r := randint sampler_list.length s
  (sampler_list.getD r.1 (Alg.mh, 24), r.2)

/-- Modelled from the spec (exploration samplers as one pluggable capability):
the littleballoffur sampler implementations are library code outside src/; a
sampler is any function taking an algorithm identifier, a node budget, the
source graph and the generator state and returning the visited node list plus
the new generator state. -/
def SampleFn : Type := Alg → Nat → Graph → Nat → List Nat × Nat

/-- G.subgraph(c): the induced subgraph on the node list c. -/
def subgraph (g : Graph) (c : List Nat) : Graph :=
  { nodes := c
  , edges := g.edges.filter (fun e => c.contains e.1 && c.contains e.2) }

/-- nx.convert_node_labels_to_integers: node identifiers are bijectively
remapped to 0..N-1 in node-enumeration order, each node going to its index in
the node list. -/
def convert_node_labels_to_integers (g : Graph) : Graph :=
  { nodes := List.range g.nodes.length
  , edges := g.edges.map (fun e => (g.nodes.indexOf e.1, g.nodes.indexOf e.2)) }

/-- One iteration of the ESWR loop body (utils.py lines 167-169): draw a
sampler from the pool, run it, relabel the sampled subgraph's nodes. -/
def sample_step (sf : SampleFn) (graph : Graph) (s : Nat) : Graph × Nat :=
  let sel := select_sampler s
  let v := sf sel.1.1 sel.1.2 graph sel.2
  (convert_node_labels_to_integers (subgraph graph v.1), v.2)

/-- The ESWR generation loop (utils.py lines 166-169), threading the modelled
global generator state and materializing the samples in order. -/
def ESWRgo (sf : SampleFn) (graph : Graph) : Nat → Nat → List Graph
  | 0, _ => []
  | n + 1, s =>
    let st := sample_step sf graph s
    st.1 :: ESWRgo sf graph n st.2

/-- ESWR (utils.py lines 145-172). The size argument is received but never
read by the body: the budget range actually used is the hardcoded
range(24, 96) baked into sampler_list. -/
def ESWR (sf : SampleFn) (graph : Graph) (n_graphs : Nat) (size : Nat)
    (s : Nat) : List Graph :=
  ESWRgo sf graph n_graphs s

/-- The ESWR loop of datasets/cora_dataset.py (lines 64-69): a single
MetropolisHastingsRandomWalkSampler with number_of_nodes = size, applied
n_graphs times. -/
def ESWRcoraGo (sf : SampleFn) (graph : Graph) (size : Nat) :
    Nat → Nat → List Graph
  | 0, _ => []
  | n + 1, s =>
    let v := sf Alg.mh size graph s
    convert_node_labels_to_integers (subgraph graph v.1) ::
      ESWRcoraGo sf graph size n v.2

/-- ESWR (datasets/cora_dataset.py lines 64-69). -/
def ESWR_cora (sf : SampleFn) (graph : Graph) (n_graphs : Nat) (size : Nat)
    (s : Nat) : List Graph :=
  ESWRcoraGo sf graph size n_graphs s

/-- base_tensor (cora_dataset.py line 45): the width-9 zero tensor created
once before the annotation loop. -/
def base_tensor : List Int := [0, 0, 0, 0, 0, 0, 0, 0, 0]

/-- The annotation loop of download_cora (cora_dataset.py lines 47-51).
class_tensor = base_tensor binds a reference to the one tensor object created
at line 45, so class_tensor[0] = node_classes[node] mutates that same shared
tensor in place on every iteration of the loop. -/
def annotate_loop (nodes : List Nat) (node_classes : Nat → Int)
    (t : List Int) : List Int :=
  nodes.foldl (fun cur node => cur.set 0 (node_classes node)) t

/-- Reading G.nodes[node]["attrs"] after the loop: every node's attrs field
holds a reference to the same shared tensor, so every node — independently of
which node is asked — reads the tensor's final contents. -/
def download_cora_node_attrs (nodes : List Nat) (node_classes : Nat → Int)
    (node : Nat) : List Int :=
  annotate_loop nodes node_classes base_tensor

/-- Stable insertion step for sorting components by node count, descending
(cora_dataset.py line 57). Python's sorted is stable, so among components of
equal size the first-encountered stays first; an earlier element x is placed
before the first later element y whose size does not exceed x's. -/
def insert_desc (x : List Nat) : List (List Nat) → List (List Nat)
  | [] => [x]
  | y :: ys =>
    if y.length ≤ x.length then x :: y :: ys else y :: insert_desc x ys

/-- sorted(CGs, key=number_of_nodes, reverse=True) (cora_dataset.py line 57),
as a stable sort on the component node lists. -/
def sorted_desc : List (List Nat) → List (List Nat)
  | [] => []
  | c :: cs => insert_desc c (sorted_desc cs)

/-- The spec's selection rule: the component with the maximum node count, ties
broken by the first encountered in the fixed enumeration order. Written from
the spec's words, to be compared with the head of sorted_desc. -/
def firstMaxBySize : List (List Nat) → List Nat
  | [] => []
  | c :: cs =>
    let r := firstMaxBySize cs
    if r.length ≤ c.length then c else r

/-- CGs[0] followed by nx.convert_node_labels_to_integers (cora_dataset.py
lines 56-59), taking the connected components of the raw graph as input,
since nx.connected_components itself is library code outside src/. -/
def extract_largest_component (g : Graph) (comps : List (List Nat)) : Graph :=
  convert_node_labels_to_integers (subgraph g ((sorted_desc comps).headD []))

/-- Lookup in the modelled processed-file store. -/
def lookupStore : List (String × List Nat) → String → Option (List Nat)
  | [], _ => none
  | (p, v) :: rest, q => if p = q then some v else lookupStore rest q

/-- State of the modelled dataset cache: the processed files on disk plus a
count of builder (process / sampling) invocations. -/
structure CacheState where
  files : List (String × List Nat)
  builderCalls : Nat

/-- Modelled from the spec (DatasetCache load_or_build): the load-or-build
decision is implemented by torch_geometric's InMemoryDataset, library code
outside src/; src/ supplies only the builder (CoraDataset.process, which
samples and saves) and the processed path. Per the spec: if the processed file
exists, deserialize and return it without building; otherwise invoke the
builder, persist the result, and return it. -/
def load_or_build (st : CacheState) (path : String)
    (builder : Unit → List Nat) : List Nat × CacheState :=
  match lookupStore st.files path with
  | some split => (split, st)
  | none =>
    let split := builder ()
    (split, ⟨(path, split) :: st.files, st.builderCalls + 1⟩)

/-- A file-system operation performed while persisting a processed split. -/
inductive FsOp where
  | write (path : String) (content : List Nat)
  | rename (src : String) (dst : String)
deriving DecidableEq, Repr

/-- The conventional processed path of the train split (cora_dataset.py
processed_file_names, lines 102-105). -/
def processed_path : String := "processed/train.pt"

/-- CoraDataset.process (cora_dataset.py line 119): torch.save((data, slices),
processed_path) — a single direct write to the conventional path. -/
def process_persist_trace (bytes : List Nat) : List FsOp :=
  [FsOp.write processed_path bytes]

/-- The claimed atomic-publish discipline: the split is first written to a
temporary path and only published to the final path by a rename, i.e. no
operation in the trace writes the final path directly. -/
def publishes_atomically (tr : List FsOp) (final : String) : Bool :=
  tr.all fun op =>
    match op with
    | FsOp.write p _ => !(p == final)
    | FsOp.rename _ _ => true

/-- Interrupting operation k of the trace mid-execution: a write that is cut
short leaves a partial file at its target path; true iff that target is the
final conventional path, i.e. iff the interruption leaves a corrupt file that
sits exactly where a complete file would. -/
def interruption_corrupts_final (tr : List FsOp) (k : Nat)
    (final : String) : Bool :=
  match tr.drop k with
  | FsOp.write p _ :: _ => p == final
  | _ => false

/-- Modelled from the spec (DatasetCombiner): the += merging of dataset
handles in get_big_dataset (interactive_validation.py lines 114-146) is
implemented by the torch dataset classes outside src/; per the spec, merging
appends the second handle's ordered samples after the first's. -/
def merge (a b : List Graph) : List Graph := a ++ b

/-- Indexed sample access on a dataset handle. -/
def getSample (d : List Graph) (i : Nat) : Graph := d.getD i ⟨[], []⟩

/-- Concrete sampler used by witnesses: always visits node 0 only. -/
def wsf : SampleFn := fun _ _ _ s => ([0], s)

/-- Concrete source graph used by witnesses. -/
def wg : Graph := ⟨[0, 1, 2], [(0, 1), (1, 2)]⟩

/-- The first sample produced by the witness ESWR run. -/
def wh : Graph := (ESWR wsf wg 1 48 0).headD ⟨[], []⟩

/-- Connected components of sizes 150 and 10, the spec's concrete scenario. -/
def wcomps : List (List Nat) := [List.range 150, List.range' 150 10]

/-- Host graph for the component-extraction scenario. -/
def wg4 : Graph := ⟨List.range 160, [(0, 1), (150, 151)]⟩

/-- A 100-sample dataset handle for the merge scenario. -/
def wA : List Graph := (List.range 100).map (fun i => ⟨[i], []⟩)

/-- A 50-sample dataset handle for the merge scenario. -/
def wB : List Graph := (List.range 50).map (fun i => ⟨[100 + i], []⟩)

theorem ESWRgo_length (sf : SampleFn) (g : Graph) :
    ∀ n s, (ESWRgo sf g n s).length = n := by
  intro n
  induction n with
  | zero => intro s; rfl
  | succ k ih => intro s; simp [ESWRgo, ih]

theorem ESWRcoraGo_length (sf : SampleFn) (g : Graph) (size : Nat) :
    ∀ n s, (ESWRcoraGo sf g size n s).length = n := by
  intro n
  induction n with
  | zero => intro s; rfl
  | succ k ih => intro s; simp [ESWRcoraGo, ih]

/-- C3: for every input graph and every requested count n, the ESWR
generation functions (both the utils.py pool version and the cora_dataset.py
single-sampler version) return a fully materialized list of exactly n sampled
subgraphs. -/
theorem claim_C3_eswr_returns_exactly_n (sf : SampleFn) (g : Graph)
    (n size s : Nat) :
    (ESWR sf g n size s).length = n ∧ (ESWR_cora sf g n size s).length = n :=
  ⟨ESWRgo_length sf g n s, ESWRcoraGo_length sf g size n s⟩

/-- C10: the pool-based ESWR generation function of utils.py does not depend
on its size argument — for any two values of that argument the returned
sample list is identical, because the budget range actually used is the
hardcoded range(24, 96) in sampler_list. -/
theorem claim_C10_size_argument_unused (sf : SampleFn) (g : Graph)
    (n s1 s2 rng : Nat) :
    ESWR sf g n s1 rng = ESWR sf g n s2 rng := rfl

/-- C2: sample generation is deterministic — two runs of the ESWR generation
loop whose global generator was configured with the same base seed produce
identical sample sequences, because all randomness flows through the seeded
generator state and the loop is a pure function of it. -/
theorem claim_C2_determinism (sf : SampleFn) (g : Graph)
    (n size seed1 seed2 : Nat) (h : seed1 = seed2) :
    ESWR sf g n size (setup_seed seed1) = ESWR sf g n size (setup_seed seed2) := by
  rw [h]

theorem claim_C2_determinism_witness :
    (7 : Nat) = 7 ∧
      ESWR wsf wg 3 48 (setup_seed 7) = ESWR wsf wg 3 48 (setup_seed 7) :=
  ⟨rfl, claim_C2_determinism wsf wg 3 48 7 7 rfl⟩

/-- C7: the sampler pool is the full cross-product of the configured
algorithm list and every integer budget in range(24, 96), materialized once;
each entry appears exactly once, each algorithm contributes exactly 72
entries (one per budget), and each sample draws one sampler by indexing the
materialized list with a uniform draw modulo its length, every index being
reachable — so algorithms contribute in proportion to their number of
budgets. -/
theorem claim_C7_pool_cross_product :
    sampler_list = poolCrossProduct
    ∧ sampler_list.length = 3 * 72
    ∧ (∀ p ∈ sampler_list, sampler_list.count p = 1)
    ∧ (∀ a ∈ possible_samplers,
        (sampler_list.filter (fun p => p.1 == a)).length = 72)
    ∧ (∀ s, select_sampler s =
        (sampler_list.getD (s % sampler_list.length) (Alg.mh, 24), rng_next s))
    ∧ (∀ i, i < sampler_list.length →
        ∃ s, (select_sampler s).1 = sampler_list.getD i (Alg.mh, 24)) := by
  refine ⟨by decide, by decide, by decide, by decide, fun s => rfl, ?_⟩
  intro i hi
  exact ⟨i, by simp [select_sampler, randint, Nat.mod_eq_of_lt hi]⟩

theorem claim_C7_pool_cross_product_witness :
    sampler_list.count (Alg.dfs, 95) = 1
    ∧ (∃ s, (select_sampler s).1 = sampler_list.getD 215 (Alg.mh, 24)) :=
  ⟨claim_C7_pool_cross_product.2.2.1 (Alg.dfs, 95) (by decide),
   claim_C7_pool_cross_product.2.2.2.2.2 215 (by decide)⟩

/-- C5: if the processed file for a given path already exists in the cache, a
second load_or_build on the same path returns a split equal to the first
(same serialized samples, same order) and does not invoke the builder again
(the builder-invocation count is unchanged), whatever builder is supplied the
second time. -/
theorem claim_C5_cache_round_trip (st : CacheState) (path : String)
    (b1 b2 : Unit → List Nat) :
    (load_or_build (load_or_build st path b1).2 path b2).1
      = (load_or_build st path b1).1
    ∧ (load_or_build (load_or_build st path b1).2 path b2).2.builderCalls
      = (load_or_build st path b1).2.builderCalls := by
  cases h : lookupStore st.files path with
  | some split => simp [load_or_build, h]
  | none => simp [load_or_build, h, lookupStore]

/-- C6 counterexample: the persist step of CoraDataset.process is not atomic
as claimed — its trace is a direct write to the conventional processed path,
so it fails the write-to-temp-then-rename discipline on a concrete split. -/
theorem claim_C6_counterexample :
    publishes_atomically (process_persist_trace [1, 2, 3]) processed_path
      = false := by decide

/-- C6 amended: persisting a processed split is a single direct torch.save
write to the conventional processed path — no temporary path and no rename —
so interrupting that write mid-way leaves a partial file at the conventional
path. -/
theorem claim_C6_amended_direct_write (bytes : List Nat) :
    process_persist_trace bytes = [FsOp.write processed_path bytes]
    ∧ interruption_corrupts_final (process_persist_trace bytes) 0
        processed_path = true := by
  constructor
  · rfl
  · simp [interruption_corrupts_final, process_persist_trace]

/-- C9: merging dataset handles is length-additive and associative on length,
and indexed access on a merged handle resolves to the handle owning the
cumulative range containing the position, at the corresponding local
offset. -/
theorem claim_C9_merge_lengths (A B C : List Graph) :
    (merge (merge A B) C).length = A.length + B.length + C.length
    ∧ (merge (merge A B) C).length = (merge A (merge B C)).length
    ∧ (∀ i, i < A.length → getSample (merge A B) i = getSample A i)
    ∧ (∀ i, A.length ≤ i →
        getSample (merge A B) i = getSample B (i - A.length)) := by
  refine ⟨by simp [merge]; omega, by simp [merge], ?_, ?_⟩
  · intro i hi
    exact List.getD_append A B _ i hi
  · intro i hi
    exact List.getD_append_right A B _ i hi

theorem claim_C9_merge_lengths_witness :
    wA.length = 100 ∧ wB.length = 50
    ∧ (100 : Nat) ≤ 120
    ∧ getSample (merge wA wB) 120 = getSample wB (120 - wA.length) :=
  ⟨by decide, by decide, by decide,
   (claim_C9_merge_lengths wA wB []).2.2.2 120 (by decide)⟩

/-- C1: evaluation of the download_cora annotation step at a failing input.
With nodes [0, 1] carrying class labels 3 and 5, every node's attribute
vector is the shared tensor's final contents [5, 0, ..., 0]: node 0's first
slot holds 5 — the other node's label — not its own label 3, and the two
differently-labelled nodes receive identical attribute vectors, refuting the
claim; the code's per-node intent is defeated by class_tensor aliasing
base_tensor. -/
theorem claim_C1_attrs_alias_failing_input :
    download_cora_node_attrs [0, 1] (fun n => if n = 0 then 3 else 5) 0
      = [5, 0, 0, 0, 0, 0, 0, 0, 0]
    ∧ download_cora_node_attrs [0, 1] (fun n => if n = 0 then 3 else 5) 1
      = download_cora_node_attrs [0, 1] (fun n => if n = 0 then 3 else 5) 0 := by
  constructor
  · rfl
  · rfl

theorem headD_insert_desc (x : List Nat) (L : List (List Nat)) :
    (insert_desc x L).headD [] =
      if (L.headD []).length ≤ x.length then x else L.headD [] := by
  cases L with
  | nil => simp [insert_desc]
  | cons y ys =>
    by_cases h : y.length ≤ x.length <;> simp [insert_desc, h]

theorem headD_sorted_desc (l : List (List Nat)) :
    (sorted_desc l).headD [] = firstMaxBySize l := by
  induction l with
  | nil => rfl
  | cons c cs ih =>
    rw [show sorted_desc (c :: cs) = insert_desc c (sorted_desc cs) from rfl,
      headD_insert_desc, ih]
    rfl

theorem firstMaxBySize_le (l : List (List Nat)) :
    ∀ c ∈ l, c.length ≤ (firstMaxBySize l).length := by
  induction l with
  | nil => intro c hc; cases hc
  | cons a as ih =>
    intro c hc
    rcases List.mem_cons.1 hc with h | h
    · subst h
      by_cases hle : (firstMaxBySize as).length ≤ c.length <;>
        simp [firstMaxBySize, hle] <;> omega
    · have hc' := ih c h
      by_cases hle : (firstMaxBySize as).length ≤ a.length <;>
        simp [firstMaxBySize, hle] <;> omega

/-- C4: component extraction returns the connected component with maximal
node count — ties broken by the first-encountered component in enumeration
order, which is exactly what the stable descending sort's head yields — with
its node identifiers bijectively remapped onto the contiguous range 0..N-1
(the remap sends each of the component's nodes to a distinct index below N,
and every index below N is hit). -/
theorem claim_C4_largest_component (g : Graph) (comps : List (List Nat))
    (hnd : (firstMaxBySize comps).Nodup) :
    (extract_largest_component g comps).nodes
      = List.range (firstMaxBySize comps).length
    ∧ (∀ c ∈ comps, c.length ≤ (firstMaxBySize comps).length)
    ∧ (∀ m ∈ firstMaxBySize comps,
        (firstMaxBySize comps).indexOf m < (firstMaxBySize comps).length)
    ∧ (∀ m1 ∈ firstMaxBySize comps, ∀ m2 ∈ firstMaxBySize comps,
        (firstMaxBySize comps).indexOf m1 = (firstMaxBySize comps).indexOf m2
          → m1 = m2)
    ∧ (∀ i, i < (firstMaxBySize comps).length →
        ∃ m ∈ firstMaxBySize comps, (firstMaxBySize comps).indexOf m = i) := by
  refine ⟨?_, firstMaxBySize_le comps, ?_, ?_, ?_⟩
  · have h1 : (extract_largest_component g comps).nodes
        = List.range ((sorted_desc comps).headD []).length := rfl
    rw [h1, headD_sorted_desc]
  · intro m hm
    exact List.indexOf_lt_length.2 hm
  · intro m1 h1 m2 h2 h
    exact (List.indexOf_inj h1 h2).1 h
  · intro i hi
    exact ⟨(firstMaxBySize comps)[i], List.getElem_mem hi,
      List.indexOf_getElem hnd i hi⟩

theorem claim_C4_largest_component_witness :
    (firstMaxBySize wcomps).length = 150
    ∧ (extract_largest_component wg4 wcomps).nodes
        = List.range (firstMaxBySize wcomps).length :=
  ⟨by decide, (claim_C4_largest_component wg4 wcomps (by decide)).1⟩

theorem select_sampler_mem (s : Nat) :
    (select_sampler s).1 ∈ sampler_list := by
  have hpos : 0 < sampler_list.length := by decide
  have hlt : s % sampler_list.length < sampler_list.length :=
    Nat.mod_lt _ hpos
  simp only [select_sampler, randint]
  rw [List.getD_eq_getElem _ _ hlt]
  exact List.getElem_mem hlt

theorem sampler_list_budget_bounds :
    ∀ p ∈ sampler_list, 24 ≤ p.2 ∧ p.2 ≤ 95 := by decide

theorem ESWRgo_mem (sf : SampleFn) (g : Graph) :
    ∀ n s h, h ∈ ESWRgo sf g n s → ∃ s0, h = (sample_step sf g s0).1 := by
  intro n
  induction n with
  | zero => intro s h hh; cases hh
  | succ k ih =>
    intro s h hh
    rw [show ESWRgo sf g (k + 1) s
        = (sample_step sf g s).1 :: ESWRgo sf g k (sample_step sf g s).2
      from rfl] at hh
    rcases List.mem_cons.1 hh with h1 | h1
    · exact ⟨s, h1⟩
    · exact ih _ h h1

theorem ESWRcoraGo_mem (sf : SampleFn) (g : Graph) (size : Nat) :
    ∀ n s h, h ∈ ESWRcoraGo sf g size n s →
      ∃ s0, h = convert_node_labels_to_integers
        (subgraph g (sf Alg.mh size g s0).1) := by
  intro n
  induction n with
  | zero => intro s h hh; cases hh
  | succ k ih =>
    intro s h hh
    rw [show ESWRcoraGo sf g size (k + 1) s
        = convert_node_labels_to_integers (subgraph g (sf Alg.mh size g s).1)
          :: ESWRcoraGo sf g size k (sf Alg.mh size g s).2
      from rfl] at hh
    rcases List.mem_cons.1 hh with h1 | h1
    · exact ⟨s, h1⟩
    · exact ih _ h h1

/-- C8: every sample returned by the ESWR generation functions has node
identifiers forming the contiguous range 0..k-1 with k ≥ 1, and k never
exceeds the maximum node budget across the pool used for generation — 95 for
the utils.py pool (budgets range(24, 96)), and the size argument for the
single-sampler pool of cora_dataset.py. The sampler hypotheses record the
modelled contract of the exploration samplers: a nonempty visited node set of
at most the requested budget. -/
theorem claim_C8_sample_invariant (sf : SampleFn) (g : Graph) (n size s : Nat)
    (hpool : ∀ p ∈ sampler_list, ∀ rng,
      (sf p.1 p.2 g rng).1 ≠ [] ∧ (sf p.1 p.2 g rng).1.length ≤ p.2)
    (hmh : ∀ rng,
      (sf Alg.mh size g rng).1 ≠ []
        ∧ (sf Alg.mh size g rng).1.length ≤ size) :
    (∀ h ∈ ESWR sf g n size s,
      h.nodes = List.range h.nodes.length
        ∧ 1 ≤ h.nodes.length ∧ h.nodes.length ≤ 95)
    ∧ (∀ h ∈ ESWR_cora sf g n size s,
      h.nodes = List.range h.nodes.length
        ∧ 1 ≤ h.nodes.length ∧ h.nodes.length ≤ size) := by
  constructor
  · intro h hh
    obtain ⟨s0, rfl⟩ := ESWRgo_mem sf g n s h hh
    have hmem := select_sampler_mem s0
    obtain ⟨hne, hlen⟩ :=
      hpool (select_sampler s0).1 hmem (select_sampler s0).2
    obtain ⟨hb1, hb2⟩ := sampler_list_budget_bounds _ hmem
    have hnodes : (sample_step sf g s0).1.nodes
        = List.range (sf (select_sampler s0).1.1 (select_sampler s0).1.2 g
            (select_sampler s0).2).1.length := rfl
    refine ⟨?_, ?_, ?_⟩
    · rw [hnodes, List.length_range]
    · rw [hnodes, List.length_range]
      exact Nat.succ_le_of_lt (List.length_pos.2 hne)
    · rw [hnodes, List.length_range]
      omega
  · intro h hh
    obtain ⟨s0, rfl⟩ := ESWRcoraGo_mem sf g size n s h hh
    obtain ⟨hne, hlen⟩ := hmh s0
    have hnodes : (convert_node_labels_to_integers
        (subgraph g (sf Alg.mh size g s0).1)).nodes
        = List.range (sf Alg.mh size g s0).1.length := rfl
    refine ⟨?_, ?_, ?_⟩
    · rw [hnodes, List.length_range]
    · rw [hnodes, List.length_range]
      exact Nat.succ_le_of_lt (List.length_pos.2 hne)
    · rw [hnodes, List.length_range]
      omega

theorem claim_C8_sample_invariant_witness :
    wh.nodes = List.range wh.nodes.length
    ∧ 1 ≤ wh.nodes.length ∧ wh.nodes.length ≤ 95 :=
  (claim_C8_sample_invariant wsf wg 1 48 0
    (fun p hp _rng => ⟨(by simp : ([0] : List Nat) ≠ []),
      Nat.le_trans (show (1 : Nat) ≤ 24 by omega)
        (sampler_list_budget_bounds p hp).1⟩)
    (fun _rng => ⟨(by simp : ([0] : List Nat) ≠ []),
      (by omega : (1 : Nat) ≤ 48)⟩)).1 wh (by decide)
